import Mathlib

/-!
Verification development for the Elasticsearch bulk visibility processor
(`processorImpl` and its helpers in the `elasticsearch` package of the
repository).  The Go code is shallowly embedded: Go maps become association
lists, channels become send logs indexed by a channel identifier, `time.Time`
becomes a `Nat` clock, and a Go panic (unchecked type assertion, index out of
range, nil dereference) becomes `Option.none`.  External library code that the
repository merely calls (`farm.Hash32`, the retryable-error classifiers of the
`esclient` package) is taken as an abstract parameter.
-/

/-- A parsed JSON value, modelling what `encoding/json` unmarshalling can
produce from one line of a bulk request body. -/
inductive JVal where
  | str (s : String)
  | num (n : Int)
  | jbool (b : Bool)
  | null
  | arr (xs : List JVal)
  | obj (fields : List (String × JVal))

/-- One line of a bulk request source: `none` models a line that is not valid
JSON at all (so any unmarshal of it fails). -/
abbrev JLine := Option JVal

/-- Model of `elastic.BulkableRequest` as the processor observes it:
`Source()` either fails (`source = none`, the `err != nil` branch) or yields
the list of request lines. -/
structure BulkableRequest where
  source : Option (List JLine)

/-- Association-list lookup, modelling Go map indexing `m[k]`. -/
def listLookup {α : Type} : List (String × α) → String → Option α
  | [], _ => none
  | (k', v) :: rest, k => if k' = k then some v else listLookup rest k

/-- Association-list insert-or-replace, modelling Go map assignment
`m[k] = v`.  A replaced pair keeps its position (the "same entry slot"). -/
def listPut {α : Type} : List (String × α) → String → α → List (String × α)
  | [], k, v => [(k, v)]
  | (k', v') :: rest, k, v =>
    if k' = k then (k, v) :: rest else (k', v') :: listPut rest k v

/-- Association-list removal, modelling Go `delete(m, k)`. -/
def listRemove {α : Type} : List (String × α) → String → List (String × α)
  | [], _ => []
  | (k', v) :: rest, k =>
    if k' = k then listRemove rest k else (k', v) :: listRemove rest k

theorem listLookup_put_self {α : Type} (l : List (String × α)) (k : String) (v : α) :
    listLookup (listPut l k v) k = some v := by
  induction l with
  | nil => simp [listPut, listLookup]
  | cons kv rest ih =>
    by_cases h : kv.1 = k
    · simp [listPut, h, listLookup]
    · simp [listPut, h, listLookup, ih]

theorem listLookup_put_other {α : Type} (l : List (String × α)) (k k' : String) (v : α)
    (h : k' ≠ k) : listLookup (listPut l k v) k' = listLookup l k' := by
  have h' : ¬ k = k' := fun hh => h hh.symm
  induction l with
  | nil => simp [listPut, listLookup, h']
  | cons kv rest ih =>
    by_cases hk : kv.1 = k
    · subst hk
      simp [listPut, listLookup, h', ih]
    · simp [listPut, hk, listLookup, ih]

theorem listLookup_remove_self {α : Type} (l : List (String × α)) (k : String) :
    listLookup (listRemove l k) k = none := by
  induction l with
  | nil => simp [listRemove, listLookup]
  | cons kv rest ih =>
    by_cases h : kv.1 = k
    · simp [listRemove, h, ih]
    · simp [listRemove, h, listLookup, ih]

theorem listLookup_remove_other {α : Type} (l : List (String × α)) (k k' : String)
    (h : k' ≠ k) : listLookup (listRemove l k) k' = listLookup l k' := by
  have h' : ¬ k = k' := fun hh => h hh.symm
  induction l with
  | nil => simp [listRemove]
  | cons kv rest ih =>
    by_cases hk : kv.1 = k
    · subst hk
      simp [listRemove, listLookup, h', ih]
    · simp [listRemove, hk, listLookup, ih]

/-- Unmarshalling one request line into Go's `map[string]interface\x7b\x7d`:
succeeds exactly on a JSON object. -/
def unmarshalMapStrAny : JLine → Option (List (String × JVal))
  | some (JVal.obj fields) => some fields
  | _ => none

/-- Unmarshalling a field value into an inner `map[string]interface\x7b\x7d`
as required by the outer `map[string]map[string]interface\x7b\x7d` type:
an object gives its fields, JSON `null` gives a nil (empty) map, anything
else is an unmarshal error. -/
def unmarshalObjField : JVal → Option (List (String × JVal))
  | JVal.obj fields => some fields
  | JVal.null => some []
  | _ => none

/-- Converts the fields of the action line so that every value is itself a
mapping; fails if any value is not an object (or null). -/
def unmarshalOpsFields : List (String × JVal) → Option (List (String × List (String × JVal)))
  | [] => some []
  | (k, v) :: rest =>
    match unmarshalObjField v with
    | none => none
    | some fs =>
      match unmarshalOpsFields rest with
      | none => none
      | some rs => some ((k, fs) :: rs)

/-- Unmarshalling the action line into `map[string]map[string]interface\x7b\x7d`. -/
def unmarshalMapStrMap (l : JLine) : Option (List (String × List (String × JVal))) :=
  match l with
  | some (JVal.obj fields) => unmarshalOpsFields fields
  | _ => none

/-- The loop of `extractDocID` over the operations of the action line:
returns `some (some s)` when the first operation carrying an `_id` holds the
string `s`, `some none` when no operation carries an `_id`, and `none` when
the `_id.(string)` type assertion panics on a non-string value. -/
def extractDocIDLoop : List (String × List (String × JVal)) → Option (Option String)
  | [] => some none
  | (_, opMap) :: rest =>
    match listLookup opMap "_id" with
    | some (JVal.str s) => some (some s)
    | some _ => none
    | none => extractDocIDLoop rest

/-- The body of `processorImpl.extractDocID`, as a function of the result of
`request.Source()`.  The result pairs the returned document id with the
number of corrupted-data counter increments performed; `none` models a Go
panic (the unchecked `_id.(string)` assertion, or indexing `req[0]` on an
empty source). -/
def extractDocIDSrc : Option (List JLine) → Option (String × Nat)
  | none => some ("", 1)
  | some [] => none
  | some (l0 :: _) =>
    match unmarshalMapStrMap l0 with
    | none => some ("", 1)
    | some body =>
      match extractDocIDLoop body with
      | none => none
      | some (some s) => some (s, 0)
      | some none => some ("", 1)

/-- Embedding of `processorImpl.extractDocID`. -/
def extractDocID (r : BulkableRequest) : Option (String × Nat) :=
  extractDocIDSrc r.source

/-- The body of `processorImpl.extractVisibilityTaskKey`, as a function of
the result of `request.Source()`.  Two-line requests (index/update) read the
well-known field `VisibilityTaskKey` from the body line; any other line count
falls through to the document-id extraction over the same source.  The result
pairs the key with the number of corrupted-data increments; `none` models the
panic of the unchecked `k.(string)` assertion. -/
def extractVisibilityTaskKeySrc : Option (List JLine) → Option (String × Nat)
  | none => some ("", 1)
  | some [_, l1] =>
    match unmarshalMapStrAny l1 with
    | none => some ("", 1)
    | some body =>
      match listLookup body "VisibilityTaskKey" with
      | none => some ("", 1)
      | some (JVal.str s) => some (s, 0)
      | some _ => none
  | some lines => extractDocIDSrc (some lines)

/-- Embedding of `processorImpl.extractVisibilityTaskKey`. -/
def extractVisibilityTaskKey (r : BulkableRequest) : Option (String × Nat) :=
  extractVisibilityTaskKeySrc r.source

/-- `true` when the named field, if present, holds a JSON string (so the
unchecked Go type assertion on it cannot panic). -/
def strWhenPresent (fields : List (String × JVal)) (name : String) : Bool :=
  match listLookup fields name with
  | some (JVal.str _) => true
  | some _ => false
  | none => true

/-- `true` when every operation of an unmarshalled action line has a string
`_id` whenever it has an `_id` at all. -/
def wfOps : List (String × List (String × JVal)) → Bool
  | [] => true
  | (_, opMap) :: rest => strWhenPresent opMap "_id" && wfOps rest

/-- Well-formedness of an action line for `extractDocID`: either it does not
unmarshal (handled as corrupted data) or all its `_id` values are strings. -/
def wfActionLine (l0 : JLine) : Bool :=
  match unmarshalMapStrMap l0 with
  | none => true
  | some body => wfOps body

/-- Sources on which the extraction functions cannot panic: the line list,
when available, is non-empty; a two-line body's `VisibilityTaskKey`, when
present, is a string; a one-line action's `_id` values, when present, are
strings. -/
def wellFormedSrc : Option (List JLine) → Bool
  | none => true
  | some [] => false
  | some [_, l1] =>
    match unmarshalMapStrAny l1 with
    | none => true
    | some body => strWhenPresent body "VisibilityTaskKey"
  | some (l0 :: _) => wfActionLine l0

/-- Requests on which the extraction functions cannot panic. -/
def wellFormedRequest (r : BulkableRequest) : Bool :=
  wellFormedSrc r.source

/-- The error carried by a bulk response item. -/
structure BulkResponseError where
  errType : String
  reason : String
deriving DecidableEq

/-- Model of `elastic.BulkResponseItem`: the fields the processor reads. -/
structure BulkResponseItem where
  id : String
  status : Int
  error : Option BulkResponseError
deriving DecidableEq

/-- The `item.Error != nil && item.Error.Type == "index_not_found_exception"`
test of `isSuccess`. -/
def isIndexNotFoundErr : Option BulkResponseError → Bool
  | some e => e.errType = "index_not_found_exception"
  | none => false

/-- Embedding of the package-level `isSuccess` classifier. -/
def isSuccess (item : BulkResponseItem) : Bool :=
  if 200 ≤ item.status ∧ item.status < 300 then true
  else if item.status = 409 then true
  else if item.status = 404 then
    if isIndexNotFoundErr item.error then false else true
  else false

/-- Model of `elastic.BulkResponse.Items`: a list of per-operation maps from
operation name to response item, as the two nested loops of
`buildResponseIndex` traverse it. -/
abbrev BulkResponse := List (List (String × BulkResponseItem))

/-- The items of a bulk response in the order the two nested loops of
`buildResponseIndex` visit them (the operation names are not read by the
loop body). -/
def responseItemsFlat : BulkResponse → List BulkResponseItem
  | [] => []
  | opMap :: rest => opMap.map Prod.snd ++ responseItemsFlat rest

/-- The loop body of `processorImpl.buildResponseIndex`, folded over the
flattened item sequence: a duplicate document id keeps the item with the
strictly greater status. -/
def buildRIAux : List BulkResponseItem → List (String × BulkResponseItem) →
    List (String × BulkResponseItem)
  | [], acc => acc
  | it :: rest, acc =>
    match listLookup acc it.id with
    | none => buildRIAux rest (listPut acc it.id it)
    | some ex =>
      if ex.status < it.status then buildRIAux rest (listPut acc it.id it)
      else buildRIAux rest acc

/-- Embedding of `processorImpl.buildResponseIndex`. -/
def buildResponseIndex (response : BulkResponse) : List (String × BulkResponseItem) :=
  buildRIAux (responseItemsFlat response) []

/-- Model of the `interface\x7b\x7d` key handed to `processorImpl.hashFn`:
either a string or a value of any other dynamic type. -/
inductive MapKey where
  | strKey (s : String)
  | nonStrKey

/-- Embedding of `processorImpl.hashFn`.  `farmHash32` abstracts the external
`farm.Hash32` function (reduced modulo `2^32` because its Go result is a
`uint32`); `indexerConcurrency` is the configured stripe modulus. -/
def hashFn (farmHash32 : List UInt8 → Nat) (indexerConcurrency : Nat) : MapKey → Nat
  | MapKey.strKey id => (farmHash32 id.toUTF8.toList % 4294967296) % indexerConcurrency
  | MapKey.nonStrKey => 0

/-- Embedding of the `ackChan` struct.  The Go `chan bool` of capacity 1 is
represented by the identifier `ackChInternal`; the values the channel receives
are recorded in a global send log (see `SentLog`).  Times are `Nat` instants
of a logical clock, with `0` as the zero time. -/
structure AckChan where
  ackChInternal : Nat
  addedAt : Nat
  startedAt : Nat
deriving DecidableEq

/-- A slot of `mapToAckChan`.  `slot` is the identity of the heap cell holding
the `ackChan` value: a duplicate `Add` overwrites the fields of the existing
cell, so the slot survives while `ackCh` is replaced. -/
structure Entry where
  slot : Nat
  ackCh : AckChan
deriving DecidableEq

/-- The dedup map `processorImpl.mapToAckChan` (`collection.ConcurrentTxMap`).
Modelled from the spec: the sharded concurrent map implementation lives in the
repository's `common/collection` package, which is not part of the sources
here; its compound operations `PutOrDo`, `GetAndDo` and `RemoveIf` are atomic
per stripe, so in this sequential embedding the map is a single association
list and each compound operation is one function application. -/
abbrev MapAck := List (String × Entry)

/-- The global channel send log: `(c, b)` records that channel `c` received
the boolean `b`.  Newest send first. -/
abbrev SentLog := List (Nat × Bool)

/-- How many values channel `c` has received. -/
def sentCount (sent : SentLog) (c : Nat) : Nat :=
  sent.countP (fun cb => cb.1 = c)

/-- Embedding of `newAckChan`: a fresh capacity-1 channel (fresh identifier
`chId`), `addedAt` the current instant, `startedAt` the zero time. -/
def newAckChan (clock chId : Nat) : AckChan :=
  { ackChInternal := chId, addedAt := clock, startedAt := 0 }

/-- Embedding of `ackChan.start`: records `startedAt` (the metric emission has
no further observable effect). -/
def ackChanStart (a : AckChan) (now : Nat) : AckChan :=
  { a with startedAt := now }

/-- Embedding of `ackChan.done`: pushes the ack value into the ticket's
result channel (recorded in the send log). -/
def ackChanDone (sent : SentLog) (a : AckChan) (ack : Bool) : SentLog :=
  (a.ackChInternal, ack) :: sent

/-- Embedding of `processorImpl.sendToAckChan`: the `RemoveIf` compound op
finds the entry for the key and, in the same atomic step, calls `done` on its
ticket and removes the map entry; a missing key is a no-op. -/
def sendToAckChan (m : MapAck) (sent : SentLog) (key : String) (ack : Bool) :
    MapAck × SentLog :=
  match listLookup m key with
  | none => (m, sent)
  | some e => (listRemove m key, ackChanDone sent e.ackCh ack)

/-- The per-key body of `processorImpl.bulkBeforeAction`: `GetAndDo` marks an
existing ticket as started (in place, keeping its slot and channel). -/
def markStartedOp (m : MapAck) (now : Nat) (key : String) : MapAck :=
  match listLookup m key with
  | none => m
  | some e => listPut m key { slot := e.slot, ackCh := ackChanStart e.ackCh now }

/-- The state touched by the bulk processor hooks: the dedup map, the channel
send log, and the metric counters the hooks increment. -/
structure HookState where
  m : MapAck
  sent : SentLog
  failures : Nat
  corrupted : Nat
  retries : Nat
deriving DecidableEq

/-- `sendToAckChan` acting on a hook state. -/
def hookSendToAck (h : HookState) (key : String) (ack : Bool) : HookState :=
  let ms := sendToAckChan h.m h.sent key ack
  { h with m := ms.1, sent := ms.2 }

/-- The top-level-error loop of `processorImpl.bulkAfterAction` (the
`err != nil` branch): every request counts a failure; for a non-retryable
error each request with a non-empty extractable key is routed through
`sendToAckChan(key, false)`.  `none` propagates an extraction panic. -/
def bulkAfterErrLoop (isRetryable : Bool) :
    List BulkableRequest → HookState → Option HookState
  | [], h => some h
  | r :: rest, h =>
    match isRetryable with
    | true => bulkAfterErrLoop isRetryable rest { h with failures := h.failures + 1 }
    | false =>
      match extractVisibilityTaskKey r with
      | none => none
      | some (key, inc) =>
        if key = "" then
          bulkAfterErrLoop isRetryable rest
            { h with failures := h.failures + 1, corrupted := h.corrupted + inc }
        else
          bulkAfterErrLoop isRetryable rest
            (hookSendToAck
              { h with failures := h.failures + 1, corrupted := h.corrupted + inc }
              key false)

/-- The per-request body of the response loop of `bulkAfterAction`:
extract key (skip if empty), extract doc id, look the doc id up in the
response index; a missing item counts corrupted data and nacks; otherwise
classify by `isSuccess` / retryable status.  `isRetryableStatus` abstracts
`esclient.IsRetryableStatus`, whose source is outside this tree. -/
def bulkAfterRespStep (isRetryableStatus : Int → Bool)
    (idx : List (String × BulkResponseItem)) (h : HookState)
    (r : BulkableRequest) : Option HookState :=
  match extractVisibilityTaskKey r with
  | none => none
  | some (key, inc) =>
    let h1 := { h with corrupted := h.corrupted + inc }
    if key = "" then some h1
    else
      match extractDocID r with
      | none => none
      | some (docID, inc2) =>
        let h2 := { h1 with corrupted := h1.corrupted + inc2 }
        match listLookup idx docID with
        | none => some (hookSendToAck { h2 with corrupted := h2.corrupted + 1 } key false)
        | some item =>
          if isSuccess item then some (hookSendToAck h2 key true)
          else if isRetryableStatus item.status then
            some { h2 with retries := h2.retries + 1 }
          else some (hookSendToAck { h2 with failures := h2.failures + 1 } key false)

/-- The response loop of `bulkAfterAction` over the whole batch. -/
def bulkAfterRespLoop (isRetryableStatus : Int → Bool)
    (idx : List (String × BulkResponseItem)) :
    List BulkableRequest → HookState → Option HookState
  | [], h => some h
  | r :: rest, h =>
    match bulkAfterRespStep isRetryableStatus idx h r with
    | none => none
    | some h' => bulkAfterRespLoop isRetryableStatus idx rest h'

/-- Embedding of `processorImpl.bulkAfterAction`.  `err` is `some b` when the
commit failed with a top-level error whose `esclient.IsRetryableError`
classification is `b` (that classifier's source is outside this tree), and
`none` when a bulk response is present. -/
def bulkAfterAction (isRetryableStatus : Int → Bool)
    (requests : List BulkableRequest) (response : BulkResponse)
    (err : Option Bool) (h : HookState) : Option HookState :=
  match err with
  | some isRetryable => bulkAfterErrLoop isRetryable requests h
  | none => bulkAfterRespLoop isRetryableStatus (buildResponseIndex response) requests h

/-- The processor lifecycle states (`common.DaemonStatus...`). -/
inductive DaemonStatus where
  | daemonInit
  | daemonStarted
  | daemonStopped
deriving DecidableEq

/-- The state of `processorImpl` that the embedded operations read and write.
`mapToAckChan`/`bulkProcessor` are `none` exactly when the Go fields are nil;
the bulk engine is modelled as the queue of requests handed to it.  `nextId`
generates fresh channel identifiers and slot identities; `clock` is the
logical time; `sent` is the global channel send log. -/
structure ProcState where
  status : DaemonStatus
  mapToAckChan : Option MapAck
  bulkProcessor : Option (List BulkableRequest)
  nextId : Nat
  clock : Nat
  sent : SentLog

/-- The state `NewProcessor` returns. -/
def procInit : ProcState :=
  { status := DaemonStatus.daemonInit, mapToAckChan := none, bulkProcessor := none,
    nextId := 0, clock := 0, sent := [] }

/-- Embedding of `processorImpl.Start`: compare-and-swap the status from
Initialized to Started; only on success allocate the map and run the bulk
processor. -/
def procStart (p : ProcState) : ProcState :=
  if p.status = DaemonStatus.daemonInit then
    { p with status := DaemonStatus.daemonStarted,
             mapToAckChan := some [], bulkProcessor := some [] }
  else p

/-- Embedding of `processorImpl.Stop`: compare-and-swap the status from
Started to Stopped; only on success stop the bulk processor and clear both
references. -/
def procStop (p : ProcState) : ProcState :=
  if p.status = DaemonStatus.daemonStarted then
    { p with status := DaemonStatus.daemonStopped,
             mapToAckChan := none, bulkProcessor := none }
  else p

/-- Embedding of `processorImpl.Add`.  A nil map or nil bulk processor
dereference (possible because `Add` performs no status check) is `none`.
`PutOrDo` either inserts the fresh ticket (and the request is handed to the
bulk processor) or, for a duplicate key, nacks the existing ticket and
overwrites its `addedAt`, `startedAt` and result channel in place, keeping
the slot, without handing the request on.  The returned `Nat` is the fresh
ticket's result channel, captured before `PutOrDo` as in the source. -/
def procAdd (p : ProcState) (r : BulkableRequest) (key : String) :
    Option (Nat × ProcState) :=
  match p.mapToAckChan with
  | none => none
  | some m =>
    match listLookup m key with
    | some e =>
      some ((newAckChan p.clock p.nextId).ackChInternal,
        { p with
          mapToAckChan := some (listPut m key
            { slot := e.slot, ackCh := newAckChan p.clock p.nextId }),
          sent := ackChanDone p.sent e.ackCh false,
          nextId := p.nextId + 1 })
    | none =>
      match p.bulkProcessor with
      | none => none
      | some q =>
        some ((newAckChan p.clock p.nextId).ackChInternal,
          { p with
            mapToAckChan := some (listPut m key
              { slot := p.nextId, ackCh := newAckChan p.clock p.nextId }),
            bulkProcessor := some (q ++ [r]),
            nextId := p.nextId + 1 })

/-- One atomic step of the processor: a lifecycle call, a clock tick, a
successful `Add`, the before-commit hook marking one key started, or the
`RemoveIf` ack routing for one key (the building block of the after-commit
hook). -/
inductive ProcStep : ProcState → ProcState → Prop where
  | startStep (p : ProcState) : ProcStep p (procStart p)
  | stopStep (p : ProcState) : ProcStep p (procStop p)
  | tickStep (p : ProcState) : ProcStep p { p with clock := p.clock + 1 }
  | addStep (p : ProcState) (r : BulkableRequest) (key : String) (c : Nat)
      (p' : ProcState) (h : procAdd p r key = some (c, p')) : ProcStep p p'
  | beforeStep (p : ProcState) (m : MapAck) (key : String)
      (h : p.mapToAckChan = some m) :
      ProcStep p { p with mapToAckChan := some (markStartedOp m p.clock key) }
  | ackStep (p : ProcState) (m : MapAck) (key : String) (ack : Bool)
      (h : p.mapToAckChan = some m) :
      ProcStep p { p with
        mapToAckChan := some (sendToAckChan m p.sent key ack).1,
        sent := (sendToAckChan m p.sent key ack).2 }

/-- States reachable from the freshly constructed processor. -/
inductive ProcReachable : ProcState → Prop where
  | init : ProcReachable procInit
  | step (p q : ProcState) (hp : ProcReachable p) (hs : ProcStep p q) : ProcReachable q

/-- C3: a bulk response item is classified a success exactly when its status
is in [200, 300), or is 409, or is 404 with an error type other than
`index_not_found_exception` (including no error at all); in particular a 404
whose error type is `index_not_found_exception` is a failure. -/
theorem isSuccess_characterization (item : BulkResponseItem) :
    isSuccess item = true ↔
      ((200 ≤ item.status ∧ item.status < 300) ∨ item.status = 409 ∨
        (item.status = 404 ∧
          ∀ e, item.error = some e → e.errType ≠ "index_not_found_exception")) := by
  rcases item with ⟨id, status, error⟩
  simp only [isSuccess]
  split_ifs with h1 h2 h3 h4
  · simp [h1]
  · simp [h2]
  · constructor
    · intro h
      exact absurd h (by simp)
    · rintro (h | h | ⟨_, h⟩)
      · exact absurd h h1
      · exact absurd h h2
      · cases error with
        | none => simp [isIndexNotFoundErr] at h4
        | some e =>
          simp only [isIndexNotFoundErr, decide_eq_true_eq] at h4
          exact absurd h4 (h e rfl)
  · constructor
    · intro _
      refine Or.inr (Or.inr ⟨h3, fun e he hty => ?_⟩)
      rw [he] at h4
      simp [isIndexNotFoundErr, hty] at h4
    · intro _
      rfl
  · constructor
    · intro h
      exact absurd h (by simp)
    · rintro (h | h | ⟨h, _⟩)
      · exact absurd h h1
      · exact absurd h h2
      · exact absurd h h3

/-- Witness for C3 at concrete inputs: status 409 is a success and a 404 with
error type `index_not_found_exception` is not. -/
theorem isSuccess_characterization_witness :
    isSuccess ⟨"d1", 409, none⟩ = true ∧
      ¬ isSuccess ⟨"d2", 404, some ⟨"index_not_found_exception", "no such index"⟩⟩ = true :=
  ⟨(isSuccess_characterization ⟨"d1", 409, none⟩).mpr (Or.inr (Or.inl rfl)),
   fun h =>
    by
      rcases (isSuccess_characterization
          ⟨"d2", 404, some ⟨"index_not_found_exception", "no such index"⟩⟩).mp h with
        h' | h' | ⟨_, h'⟩
      · simp at h'
      · simp at h'
      · exact h' ⟨"index_not_found_exception", "no such index"⟩ rfl rfl⟩

/-- C9: the stripe-selection hash is a function of the key alone, always
lands in [0, indexerConcurrency) when the configured concurrency is at least
one, and for string keys is exactly the 32-bit farm hash of the key's bytes
reduced modulo the configured concurrency — so the stripe modulus is the
configured concurrency value. -/
theorem hashFn_stripe_selection (farmHash32 : List UInt8 → Nat) (conc : Nat)
    (hc : 1 ≤ conc) :
    (∀ k1 k2 : MapKey, k1 = k2 → hashFn farmHash32 conc k1 = hashFn farmHash32 conc k2) ∧
    (∀ k : MapKey, hashFn farmHash32 conc k < conc) ∧
    (∀ s : String, hashFn farmHash32 conc (MapKey.strKey s) =
      (farmHash32 s.toUTF8.toList % 4294967296) % conc) := by
  refine ⟨fun k1 k2 h => by rw [h], fun k => ?_, fun s => rfl⟩
  cases k with
  | strKey s => exact Nat.mod_lt _ (by omega)
  | nonStrKey => simpa [hashFn] using hc

/-- Witness for C9 at a concrete hash function, concurrency and key. -/
theorem hashFn_stripe_selection_witness :
    hashFn (fun l => l.length) 3 (MapKey.strKey "7-619") < 3 :=
  (hashFn_stripe_selection (fun l => l.length) 3 (by decide)).2.1 (MapKey.strKey "7-619")

theorem buildRIAux_keeps_isSome (its : List BulkResponseItem)
    (acc : List (String × BulkResponseItem)) (did : String)
    (h : (listLookup acc did).isSome) : (listLookup (buildRIAux its acc) did).isSome := by
  induction its generalizing acc with
  | nil => exact h
  | cons it rest ih =>
    have hput : (listLookup (listPut acc it.id it) did).isSome := by
      by_cases hid : did = it.id
      · subst hid
        simp [listLookup_put_self]
      · rwa [listLookup_put_other _ _ _ _ hid]
    rcases hl : listLookup acc it.id with _ | ex
    · simpa only [buildRIAux, hl] using ih _ hput
    · by_cases hlt : ex.status < it.status
      · simpa only [buildRIAux, hl, if_pos hlt] using ih _ hput
      · simpa only [buildRIAux, hl, if_neg hlt] using ih _ h

theorem buildRIAux_mem_isSome (its : List BulkResponseItem)
    (acc : List (String × BulkResponseItem)) (j : BulkResponseItem)
    (hj : j ∈ its) : (listLookup (buildRIAux its acc) j.id).isSome := by
  induction its generalizing acc with
  | nil => cases hj
  | cons it rest ih =>
    rcases List.mem_cons.mp hj with hje | hje
    · subst hje
      have hput : (listLookup (listPut acc j.id j) j.id).isSome := by
        simp [listLookup_put_self]
      rcases hl : listLookup acc j.id with _ | ex
      · simpa only [buildRIAux, hl] using buildRIAux_keeps_isSome rest _ _ hput
      · by_cases hlt : ex.status < j.status
        · simpa only [buildRIAux, hl, if_pos hlt] using buildRIAux_keeps_isSome rest _ _ hput
        · exact by
            simpa only [buildRIAux, hl, if_neg hlt] using
              buildRIAux_keeps_isSome rest acc j.id (by simp [hl])
    · rcases hl : listLookup acc it.id with _ | ex
      · simpa only [buildRIAux, hl] using ih _ hje
      · by_cases hlt : ex.status < it.status
        · simpa only [buildRIAux, hl, if_pos hlt] using ih _ hje
        · simpa only [buildRIAux, hl, if_neg hlt] using ih _ hje

theorem buildRIAux_lookup_spec (its : List BulkResponseItem)
    (acc : List (String × BulkResponseItem)) (did : String) (item : BulkResponseItem)
    (h : listLookup (buildRIAux its acc) did = some item) :
    ((listLookup acc did = some item) ∨ (item ∈ its ∧ item.id = did)) ∧
    (∀ a, listLookup acc did = some a → a.status ≤ item.status) ∧
    (∀ j, j ∈ its → j.id = did → j.status ≤ item.status) := by
  induction its generalizing acc with
  | nil =>
    simp only [buildRIAux] at h
    refine ⟨Or.inl h, fun a ha => ?_, fun j hj => (by cases hj)⟩
    rw [h] at ha
    cases ha
    exact le_refl _
  | cons it rest ih =>
    rcases hl : listLookup acc it.id with _ | ex
    · -- fresh document id: the item is inserted
      simp only [buildRIAux, hl] at h
      obtain ⟨hmem, hacc, hrest⟩ := ih (listPut acc it.id it) h
      by_cases hid : did = it.id
      · subst hid
        have hself : listLookup (listPut acc it.id it) it.id = some it :=
          listLookup_put_self _ _ _
        have hit_le : it.status ≤ item.status := hacc it hself
        refine ⟨?_, fun a ha => ?_, fun j hj hjid => ?_⟩
        · rcases hmem with hm | ⟨hm, hmid⟩
          · rw [hself] at hm
            cases hm
            exact Or.inr ⟨List.mem_cons_self _ _, rfl⟩
          · exact Or.inr ⟨List.mem_cons_of_mem _ hm, hmid⟩
        · rw [hl] at ha
          cases ha
        · rcases List.mem_cons.mp hj with hje | hje
          · subst hje
            exact hit_le
          · exact hrest j hje hjid
      · rw [listLookup_put_other _ _ _ _ hid] at hmem hacc
        refine ⟨?_, hacc, fun j hj hjid => ?_⟩
        · rcases hmem with hm | ⟨hm, hmid⟩
          · exact Or.inl hm
          · exact Or.inr ⟨List.mem_cons_of_mem _ hm, hmid⟩
        · rcases List.mem_cons.mp hj with hje | hje
          · subst hje
            exact absurd hjid (fun hh => hid hh.symm)
          · exact hrest j hje hjid
    · by_cases hlt : ex.status < it.status
      · -- strictly greater status replaces the stored item
        simp only [buildRIAux, hl, if_pos hlt] at h
        obtain ⟨hmem, hacc, hrest⟩ := ih (listPut acc it.id it) h
        by_cases hid : did = it.id
        · subst hid
          have hself : listLookup (listPut acc it.id it) it.id = some it :=
            listLookup_put_self _ _ _
          have hit_le : it.status ≤ item.status := hacc it hself
          refine ⟨?_, fun a ha => ?_, fun j hj hjid => ?_⟩
          · rcases hmem with hm | ⟨hm, hmid⟩
            · rw [hself] at hm
              cases hm
              exact Or.inr ⟨List.mem_cons_self _ _, rfl⟩
            · exact Or.inr ⟨List.mem_cons_of_mem _ hm, hmid⟩
          · rw [hl] at ha
            cases ha
            exact le_trans (le_of_lt hlt) hit_le
          · rcases List.mem_cons.mp hj with hje | hje
            · subst hje
              exact hit_le
            · exact hrest j hje hjid
        · rw [listLookup_put_other _ _ _ _ hid] at hmem hacc
          refine ⟨?_, hacc, fun j hj hjid => ?_⟩
          · rcases hmem with hm | ⟨hm, hmid⟩
            · exact Or.inl hm
            · exact Or.inr ⟨List.mem_cons_of_mem _ hm, hmid⟩
          · rcases List.mem_cons.mp hj with hje | hje
            · subst hje
              exact absurd hjid (fun hh => hid hh.symm)
            · exact hrest j hje hjid
      · -- smaller-or-equal status is dropped
        simp only [buildRIAux, hl, if_neg hlt] at h
        obtain ⟨hmem, hacc, hrest⟩ := ih acc h
        refine ⟨?_, hacc, fun j hj hjid => ?_⟩
        · rcases hmem with hm | ⟨hm, hmid⟩
          · exact Or.inl hm
          · exact Or.inr ⟨List.mem_cons_of_mem _ hm, hmid⟩
        · rcases List.mem_cons.mp hj with hje | hje
          · subst hje
            have hl' : listLookup acc did = some ex := by
              rw [← hjid]
              exact hl
            exact le_trans (le_of_not_lt hlt) (hacc ex hl')
          · exact hrest j hje hjid

/-- C5: the doc-id → response-item index built by the after-commit hook maps
each document id occurring in the response to exactly one item (lookup is
defined for every occurring id), the item stored under an id is one of the
response's items with that id, and its status is the greatest status among
all response items sharing that id. -/
theorem buildResponseIndex_greatest_status (response : BulkResponse) (id : String)
    (item : BulkResponseItem)
    (h : listLookup (buildResponseIndex response) id = some item) :
    (item ∈ responseItemsFlat response ∧ item.id = id ∧
      ∀ j, j ∈ responseItemsFlat response → j.id = id → j.status ≤ item.status) ∧
    (∀ j, j ∈ responseItemsFlat response →
      (listLookup (buildResponseIndex response) j.id).isSome) := by
  obtain ⟨hmem, _, hall⟩ := buildRIAux_lookup_spec (responseItemsFlat response) [] id item h
  rcases hmem with hm | ⟨hm, hmid⟩
  · cases hm
  · exact ⟨⟨hm, hmid, hall⟩, fun j hj => buildRIAux_mem_isSome _ _ _ hj⟩

/-- Witness for C5: a response carrying a 200 item and a 409 item with the
same document id indexes the id to the 409 item, which dominates the 200
item's status. -/
theorem buildResponseIndex_greatest_status_witness :
    (⟨"A", 409, none⟩ : BulkResponseItem) ∈
        responseItemsFlat [[("index", ⟨"A", 200, none⟩), ("index", ⟨"A", 409, none⟩)]] ∧
      (⟨"A", 200, none⟩ : BulkResponseItem).status ≤
        (⟨"A", 409, none⟩ : BulkResponseItem).status := by
  have h := buildResponseIndex_greatest_status
    [[("index", ⟨"A", 200, none⟩), ("index", ⟨"A", 409, none⟩)]] "A" ⟨"A", 409, none⟩ rfl
  exact ⟨h.1.1, h.1.2.2 ⟨"A", 200, none⟩ (by simp [responseItemsFlat]) rfl⟩

theorem extractDocIDSrc_shape (src : Option (List JLine)) (k : String) (n : Nat)
    (h : extractDocIDSrc src = some (k, n)) : n = 0 ∨ (k = "" ∧ n = 1) := by
  rcases src with _ | lines
  · simp only [extractDocIDSrc] at h
    cases h
    exact Or.inr ⟨rfl, rfl⟩
  · rcases lines with _ | ⟨l0, rest⟩
    · simp [extractDocIDSrc] at h
    · simp only [extractDocIDSrc] at h
      split at h
      · cases h
        exact Or.inr ⟨rfl, rfl⟩
      · split at h
        · simp at h
        · cases h
          exact Or.inl rfl
        · cases h
          exact Or.inr ⟨rfl, rfl⟩

theorem extractDocIDLoop_total (body : List (String × List (String × JVal)))
    (h : wfOps body = true) : (extractDocIDLoop body).isSome := by
  induction body with
  | nil => simp [extractDocIDLoop]
  | cons op rest ih =>
    rcases op with ⟨opName, opMap⟩
    simp only [wfOps, Bool.and_eq_true] at h
    rcases hid : listLookup opMap "_id" with _ | v
    · simpa only [extractDocIDLoop, hid] using ih h.2
    · rcases v with s | nn | bb | _ | xs | fs
      · simp [extractDocIDLoop, hid]
      all_goals
        (exfalso
         have h1 := h.1
         simp [strWhenPresent, hid] at h1)

theorem extractDocIDSrc_total (lines : List JLine) (l0 : JLine) (tl : List JLine)
    (hlines : lines = l0 :: tl) (hwf : wfActionLine l0 = true) :
    (extractDocIDSrc (some lines)).isSome := by
  subst hlines
  simp only [extractDocIDSrc]
  rcases hum : unmarshalMapStrMap l0 with _ | body
  · simp [hum]
  · simp only [wfActionLine, hum] at hwf
    have hl := extractDocIDLoop_total body hwf
    rcases hloop : extractDocIDLoop body with _ | (_ | s)
    · rw [hloop] at hl
      cases hl
    · simp [hum, hloop]
    · simp [hum, hloop]

theorem extractKeySrc_total (src : Option (List JLine)) (hwf : wellFormedSrc src = true) :
    (extractVisibilityTaskKeySrc src).isSome := by
  rcases src with _ | lines
  · simp [extractVisibilityTaskKeySrc]
  · rcases lines with _ | ⟨l0, rest⟩
    · simp [wellFormedSrc] at hwf
    · rcases rest with _ | ⟨l1, rest2⟩
      · simp only [wellFormedSrc] at hwf
        simp only [extractVisibilityTaskKeySrc]
        exact extractDocIDSrc_total [l0] l0 [] rfl hwf
      · rcases rest2 with _ | ⟨l2, rest3⟩
        · simp only [wellFormedSrc] at hwf
          simp only [extractVisibilityTaskKeySrc]
          rcases hum : unmarshalMapStrAny l1 with _ | body
          · simp [hum]
          · simp only [hum] at hwf
            rcases hkey : listLookup body "VisibilityTaskKey" with _ | v
            · simp [hum, hkey]
            · rcases v with s | nn | bb | _ | xs | fs
              · simp [hum, hkey]
              all_goals
                (exfalso
                 simp [strWhenPresent, hkey] at hwf)
        · simp only [wellFormedSrc] at hwf
          simp only [extractVisibilityTaskKeySrc]
          exact extractDocIDSrc_total (l0 :: l1 :: l2 :: rest3) l0 _ rfl hwf

theorem extractKeySrc_shape (src : Option (List JLine)) (k : String) (n : Nat)
    (h : extractVisibilityTaskKeySrc src = some (k, n)) : n = 0 ∨ (k = "" ∧ n = 1) := by
  rcases src with _ | lines
  · simp only [extractVisibilityTaskKeySrc] at h
    cases h
    exact Or.inr ⟨rfl, rfl⟩
  · rcases lines with _ | ⟨l0, rest⟩
    · simp only [extractVisibilityTaskKeySrc] at h
      exact extractDocIDSrc_shape (some []) k n h
    · rcases rest with _ | ⟨l1, rest2⟩
      · simp only [extractVisibilityTaskKeySrc] at h
        exact extractDocIDSrc_shape (some [l0]) k n h
      · rcases rest2 with _ | ⟨l2, rest3⟩
        · simp only [extractVisibilityTaskKeySrc] at h
          split at h
          · cases h
            exact Or.inr ⟨rfl, rfl⟩
          · split at h
            all_goals first
              | (cases h; exact Or.inr ⟨rfl, rfl⟩)
              | (cases h; exact Or.inl rfl)
              | simp at h
        · simp only [extractVisibilityTaskKeySrc] at h
          exact extractDocIDSrc_shape (some (l0 :: l1 :: l2 :: rest3)) k n h

theorem extractKeySrc_fallthrough (lines : List JLine) (hlen : lines.length ≠ 2) :
    extractVisibilityTaskKeySrc (some lines) = extractDocIDSrc (some lines) := by
  rcases lines with _ | ⟨l0, rest⟩
  · rfl
  · rcases rest with _ | ⟨l1, rest2⟩
    · rfl
    · rcases rest2 with _ | ⟨l2, rest3⟩
      · exact absurd rfl hlen
      · rfl

/-- A two-line bulk request whose body parses and carries a
`VisibilityTaskKey` field that is a JSON number, not a string: the unchecked
`k.(string)` type assertion in `extractVisibilityTaskKey` panics on it. -/
def panicKeyRequest : BulkableRequest :=
  { source := some
      [some (JVal.obj [("index", JVal.obj [("_id", JVal.str "A")])]),
       some (JVal.obj [("VisibilityTaskKey", JVal.num 7)])] }

/-- Counterexample to C8: key extraction is not total.  On a request whose
`VisibilityTaskKey` field is present but holds a non-string JSON value the
extraction faults (Go panic on the unchecked type assertion) instead of
returning an empty key and counting corrupted data. -/
theorem extractVisibilityTaskKey_not_total :
    extractVisibilityTaskKey panicKeyRequest = none := rfl

/-- C8 (amended): key extraction never faults on requests whose present
`VisibilityTaskKey` / `_id` field values are strings (and whose source, when
readable, is non-empty); every non-faulting result either extracts a key with
no corrupted-data increment or returns the empty key with exactly one
corrupted-data increment; one-line (delete) requests fall through to the
document id; and a parsed two-line body with a string `VisibilityTaskKey`
yields exactly that string. -/
theorem extractVisibilityTaskKey_amended (r : BulkableRequest) :
    (wellFormedRequest r = true → (extractVisibilityTaskKey r).isSome) ∧
    (∀ k n, extractVisibilityTaskKey r = some (k, n) → n = 0 ∨ (k = "" ∧ n = 1)) ∧
    (∀ lines, r.source = some lines → lines.length ≠ 2 →
      extractVisibilityTaskKey r = extractDocID r) ∧
    (∀ l0 l1 body s, r.source = some [l0, l1] → unmarshalMapStrAny l1 = some body →
      listLookup body "VisibilityTaskKey" = some (JVal.str s) →
      extractVisibilityTaskKey r = some (s, 0)) := by
  refine ⟨fun hwf => extractKeySrc_total r.source hwf,
    fun k n h => extractKeySrc_shape r.source k n h, ?_, ?_⟩
  · intro lines hsrc hlen
    show extractVisibilityTaskKeySrc r.source = extractDocIDSrc r.source
    rw [hsrc]
    exact extractKeySrc_fallthrough lines hlen
  · intro l0 l1 body s hsrc hum hkey
    show extractVisibilityTaskKeySrc r.source = some (s, 0)
    rw [hsrc]
    simp only [extractVisibilityTaskKeySrc, hum, hkey]

/-- Witness for C8 (amended) at a concrete well-formed two-line request. -/
theorem extractVisibilityTaskKey_amended_witness :
    extractVisibilityTaskKey
        { source := some
            [some (JVal.obj [("index", JVal.obj [("_id", JVal.str "A")])]),
             some (JVal.obj [("VisibilityTaskKey", JVal.str "7-619")])] } =
      some ("7-619", 0) :=
  (extractVisibilityTaskKey_amended _).2.2.2
    (some (JVal.obj [("index", JVal.obj [("_id", JVal.str "A")])]))
    (some (JVal.obj [("VisibilityTaskKey", JVal.str "7-619")]))
    [("VisibilityTaskKey", JVal.str "7-619")] "7-619" rfl rfl rfl

theorem procAdd_fields (p : ProcState) (r : BulkableRequest) (key : String) (c : Nat)
    (p' : ProcState) (h : procAdd p r key = some (c, p')) :
    p'.status = p.status ∧ p'.clock = p.clock ∧ p'.mapToAckChan.isSome := by
  unfold procAdd at h
  split at h
  · cases h
  · split at h
    · simp only [Option.some.injEq, Prod.mk.injEq] at h
      obtain ⟨-, hp'⟩ := h
      subst hp'
      exact ⟨rfl, rfl, rfl⟩
    · split at h
      · cases h
      · simp only [Option.some.injEq, Prod.mk.injEq] at h
        obtain ⟨-, hp'⟩ := h
        subst hp'
        exact ⟨rfl, rfl, rfl⟩

/-- C1: `Add` with a fresh key inserts a fresh capacity-1 ticket and hands
the request to the bulk engine; `Add` with a duplicate key nacks the existing
ticket (`done(false)` on its channel), overwrites the existing entry's ticket
fields in place — keeping the entry slot — with the new ticket's
`addedAt`, `startedAt` and channel, and does NOT hand the request to the
engine (the `bulkProcessor` field is untouched); in both cases the returned
channel is the new ticket's channel, which is the channel the map entry for
the key then refers to. -/
theorem procAdd_dedup (p : ProcState) (m : MapAck) (r : BulkableRequest) (key : String)
    (hm : p.mapToAckChan = some m) :
    (∀ q, p.bulkProcessor = some q → listLookup m key = none →
      procAdd p r key = some (p.nextId,
        { p with
          mapToAckChan := some (listPut m key
            { slot := p.nextId, ackCh := newAckChan p.clock p.nextId }),
          bulkProcessor := some (q ++ [r]),
          nextId := p.nextId + 1 })) ∧
    (∀ e, listLookup m key = some e →
      procAdd p r key = some (p.nextId,
        { p with
          mapToAckChan := some (listPut m key
            { slot := e.slot, ackCh := newAckChan p.clock p.nextId }),
          sent := ackChanDone p.sent e.ackCh false,
          nextId := p.nextId + 1 })) ∧
    (∀ c p' m', procAdd p r key = some (c, p') → p'.mapToAckChan = some m' →
      ∃ e', listLookup m' key = some e' ∧ e'.ackCh.ackChInternal = c) := by
  refine ⟨?_, ?_, ?_⟩
  · intro q hq hnone
    simp [procAdd, hm, hnone, hq, newAckChan]
  · intro e he
    simp [procAdd, hm, he, newAckChan]
  · intro c p' m' hpa hm'
    simp only [procAdd, hm] at hpa
    rcases hlk : listLookup m key with _ | e <;> simp only [hlk] at hpa
    · rcases hq : p.bulkProcessor with _ | q <;> simp only [hq] at hpa
      · cases hpa
      · simp only [Option.some.injEq, Prod.mk.injEq] at hpa
        obtain ⟨hc, hp'⟩ := hpa
        subst hp'
        simp only [Option.some.injEq] at hm'
        subst hm'
        exact ⟨{ slot := p.nextId, ackCh := newAckChan p.clock p.nextId },
          listLookup_put_self _ _ _, hc⟩
    · simp only [Option.some.injEq, Prod.mk.injEq] at hpa
      obtain ⟨hc, hp'⟩ := hpa
      subst hp'
      simp only [Option.some.injEq] at hm'
      subst hm'
      exact ⟨{ slot := e.slot, ackCh := newAckChan p.clock p.nextId },
        listLookup_put_self _ _ _, hc⟩

/-- A concrete two-line bulk request used by the witnesses. -/
def reqA : BulkableRequest :=
  { source := some
      [some (JVal.obj [("index", JVal.obj [("_id", JVal.str "A")])]),
       some (JVal.obj [("VisibilityTaskKey", JVal.str "K")])] }

/-- A concrete pending ticket used by the witnesses. -/
def ackChan0 : AckChan := { ackChInternal := 0, addedAt := 0, startedAt := 0 }

/-- A concrete map entry used by the witnesses. -/
def entry0 : Entry := { slot := 0, ackCh := ackChan0 }

/-- A started processor holding one pending ticket for key "K". -/
def pDupState : ProcState :=
  { status := DaemonStatus.daemonStarted, mapToAckChan := some [("K", entry0)],
    bulkProcessor := some [reqA], nextId := 1, clock := 0, sent := [] }

/-- Witness for C1: a duplicate `Add` on the concrete state nacks the pending
ticket, replaces its fields in the same slot and does not touch the engine. -/
theorem procAdd_dedup_witness :
    procAdd pDupState reqA "K" = some (1,
      { pDupState with
        mapToAckChan := some (listPut [("K", entry0)] "K"
          { slot := entry0.slot, ackCh := newAckChan pDupState.clock pDupState.nextId }),
        sent := ackChanDone pDupState.sent entry0.ackCh false,
        nextId := pDupState.nextId + 1 }) :=
  (procAdd_dedup pDupState [("K", entry0)] reqA "K" rfl).2.1 entry0 rfl

/-- The one-way order of the daemon lifecycle. -/
def statusRank : DaemonStatus → Nat
  | DaemonStatus.daemonInit => 0
  | DaemonStatus.daemonStarted => 1
  | DaemonStatus.daemonStopped => 2

/-- C6: `Start` moves Initialized to Started and `Stop` moves Started to
Stopped, each by an atomic compare-and-swap; a repeated or out-of-order call
leaves the whole processor state (status, map, engine) unchanged, and no step
of the processor ever lowers the lifecycle order, so the transitions are
one-way. -/
theorem procLifecycle_cas (p : ProcState) :
    (p.status = DaemonStatus.daemonInit → (procStart p).status = DaemonStatus.daemonStarted) ∧
    (p.status ≠ DaemonStatus.daemonInit → procStart p = p) ∧
    (p.status = DaemonStatus.daemonStarted → (procStop p).status = DaemonStatus.daemonStopped) ∧
    (p.status ≠ DaemonStatus.daemonStarted → procStop p = p) ∧
    (∀ q, ProcStep p q → statusRank p.status ≤ statusRank q.status) := by
  refine ⟨fun h => by simp [procStart, h], fun h => by simp [procStart, h],
    fun h => by simp [procStop, h], fun h => by simp [procStop, h], ?_⟩
  intro q hs
  cases hs with
  | startStep =>
    by_cases h : p.status = DaemonStatus.daemonInit
    · simp [procStart, h, statusRank]
    · simp [procStart, h]
  | stopStep =>
    by_cases h : p.status = DaemonStatus.daemonStarted
    · simp [procStop, h, statusRank]
    · simp [procStop, h]
  | tickStep => exact le_refl _
  | addStep =>
    rename_i ra keya ca ha
    rw [(procAdd_fields p ra keya ca q ha).1]
  | beforeStep m key h => exact le_refl _
  | ackStep m key ack h => exact le_refl _

/-- A stopped processor used by the C6 witness. -/
def pStoppedState : ProcState :=
  { status := DaemonStatus.daemonStopped, mapToAckChan := none, bulkProcessor := none,
    nextId := 2, clock := 3, sent := [(0, false)] }

/-- Witness for C6: out-of-order `Start` and repeated `Stop` on a stopped
processor change nothing. -/
theorem procLifecycle_cas_witness :
    procStart pStoppedState = pStoppedState ∧ procStop pStoppedState = pStoppedState :=
  ⟨(procLifecycle_cas pStoppedState).2.1 (by decide),
   (procLifecycle_cas pStoppedState).2.2.2.1 (by decide)⟩

theorem sendToAck_lookup_self (m : MapAck) (sent : SentLog) (key : String) (ack : Bool) :
    listLookup (sendToAckChan m sent key ack).1 key = none := by
  unfold sendToAckChan
  rcases hl : listLookup m key with _ | e
  · exact hl
  · exact listLookup_remove_self m key

theorem sendToAck_lookup_other (m : MapAck) (sent : SentLog) (key k' : String) (ack : Bool)
    (h : k' ≠ key) : listLookup (sendToAckChan m sent key ack).1 k' = listLookup m k' := by
  unfold sendToAckChan
  rcases hl : listLookup m key with _ | e
  · rfl
  · exact listLookup_remove_other m key k' h

theorem sendToAck_sent_superset (m : MapAck) (sent : SentLog) (key : String) (ack : Bool)
    (cb : Nat × Bool) (h : cb ∈ sent) : cb ∈ (sendToAckChan m sent key ack).2 := by
  unfold sendToAckChan
  rcases hl : listLookup m key with _ | e
  · exact h
  · exact List.mem_cons_of_mem _ h

theorem sendToAck_sent_new (m : MapAck) (sent : SentLog) (key : String) (ack : Bool)
    (cb : Nat × Bool) (h : cb ∈ (sendToAckChan m sent key ack).2) :
    cb ∈ sent ∨ cb.2 = ack := by
  unfold sendToAckChan at h
  rcases hl : listLookup m key with _ | e <;> rw [hl] at h
  · exact Or.inl h
  · rcases List.mem_cons.mp h with he | he
    · subst he
      exact Or.inr rfl
    · exact Or.inl he

theorem sendToAck_sends_if_present (m : MapAck) (sent : SentLog) (key : String) (ack : Bool)
    (e : Entry) (h : listLookup m key = some e) :
    (e.ackCh.ackChInternal, ack) ∈ (sendToAckChan m sent key ack).2 := by
  unfold sendToAckChan
  rw [h]
  exact List.mem_cons_self _ _

theorem bulkAfterErrLoop_retryable (reqs : List BulkableRequest) (h : HookState) :
    bulkAfterErrLoop true reqs h = some { h with failures := h.failures + reqs.length } := by
  induction reqs generalizing h with
  | nil => simp [bulkAfterErrLoop]
  | cons r rest ih =>
    simp only [bulkAfterErrLoop]
    rw [ih]
    have harith : h.failures + 1 + rest.length = h.failures + (rest.length + 1) := by omega
    simp [harith, List.length_cons]

theorem bulkAfterErrLoop_nonretry_total (reqs : List BulkableRequest) (h : HookState)
    (hall : ∀ r ∈ reqs, (extractVisibilityTaskKey r).isSome) :
    (bulkAfterErrLoop false reqs h).isSome := by
  induction reqs generalizing h with
  | nil => simp [bulkAfterErrLoop]
  | cons r rest ih =>
    have hr := hall r (List.mem_cons_self _ _)
    rcases hex : extractVisibilityTaskKey r with _ | ⟨k, n⟩
    · rw [hex] at hr
      cases hr
    · simp only [bulkAfterErrLoop, hex]
      by_cases hk : k = ""
      · rw [if_pos hk]
        exact ih _ (fun r' hr' => hall r' (List.mem_cons_of_mem _ hr'))
      · rw [if_neg hk]
        exact ih _ (fun r' hr' => hall r' (List.mem_cons_of_mem _ hr'))

theorem bulkAfterErrLoop_nonretry_spec (reqs : List BulkableRequest) (h h' : HookState)
    (hrun : bulkAfterErrLoop false reqs h = some h') :
    (∀ cb, cb ∈ h.sent → cb ∈ h'.sent) ∧
    (∀ cb, cb ∈ h'.sent → cb ∈ h.sent ∨ cb.2 = false) ∧
    (∀ k, listLookup h.m k = none → listLookup h'.m k = none) ∧
    (∀ r, r ∈ reqs → ∀ k n, extractVisibilityTaskKey r = some (k, n) → k ≠ "" →
      listLookup h'.m k = none ∧
      (∀ e, listLookup h.m k = some e → (e.ackCh.ackChInternal, false) ∈ h'.sent)) := by
  induction reqs generalizing h with
  | nil =>
    simp only [bulkAfterErrLoop, Option.some.injEq] at hrun
    subst hrun
    exact ⟨fun cb hcb => hcb, fun cb hcb => Or.inl hcb, fun k hk => hk,
      fun r hr => (by cases hr)⟩
  | cons r0 rest ih =>
    rcases hex : extractVisibilityTaskKey r0 with _ | ⟨k0, n0⟩ <;>
      simp only [bulkAfterErrLoop, hex] at hrun
    · cases hrun
    · by_cases hk0 : k0 = ""
      · rw [if_pos hk0] at hrun
        obtain ⟨hsup, hnew, hnone, hreq⟩ := ih _ hrun
        refine ⟨hsup, hnew, hnone, fun r hr k n hrex hk => ?_⟩
        rcases List.mem_cons.mp hr with hre | hre
        · subst hre
          rw [hex] at hrex
          cases hrex
          exact absurd hk0 hk
        · exact hreq r hre k n hrex hk
      · rw [if_neg hk0] at hrun
        obtain ⟨hsup, hnew, hnone, hreq⟩ := ih _ hrun
        have hsup0 : ∀ cb, cb ∈ h.sent → cb ∈ (sendToAckChan h.m h.sent k0 false).2 :=
          fun cb hcb => sendToAck_sent_superset h.m h.sent k0 false cb hcb
        have hnew0 : ∀ cb, cb ∈ (sendToAckChan h.m h.sent k0 false).2 →
            cb ∈ h.sent ∨ cb.2 = false :=
          fun cb hcb => sendToAck_sent_new h.m h.sent k0 false cb hcb
        have hnone0 : ∀ k, listLookup h.m k = none →
            listLookup (sendToAckChan h.m h.sent k0 false).1 k = none := by
          intro k hk
          by_cases hkk : k = k0
          · subst hkk
            exact sendToAck_lookup_self _ _ _ _
          · rw [sendToAck_lookup_other _ _ _ _ _ hkk]
            exact hk
        refine ⟨fun cb hcb => hsup cb (hsup0 cb hcb),
          fun cb hcb => ?_,
          fun k hk => hnone k (hnone0 k hk),
          fun r hr k n hrex hk => ?_⟩
        · rcases hnew cb hcb with hcb' | hcb'
          · exact hnew0 cb hcb'
          · exact Or.inr hcb'
        · rcases List.mem_cons.mp hr with hre | hre
          · subst hre
            rw [hex] at hrex
            cases hrex
            constructor
            · exact hnone _ (sendToAck_lookup_self h.m h.sent _ _)
            · intro e he
              exact hsup _ (sendToAck_sends_if_present h.m h.sent _ _ e he)
          · obtain ⟨hnn, hee⟩ := hreq r hre k n hrex hk
            refine ⟨hnn, fun e he => ?_⟩
            by_cases hkk : k = k0
            · subst hkk
              exact hsup _ (sendToAck_sends_if_present h.m h.sent _ _ e he)
            · refine hee e ?_
              show listLookup (sendToAckChan h.m h.sent k0 false).1 k = some e
              rw [sendToAck_lookup_other _ _ _ _ _ hkk]
              exact he

/-- C4: when the after-commit hook receives a top-level error, a retryable
classification leaves the map and every channel untouched (only the failure
counter moves, once per request), while a non-retryable classification routes
`sendToAck(key, false)` for every request with a non-empty extractable key:
afterwards no map entry remains under any such key, the entry that was there
received `false` on its channel, and no channel ever receives anything other
than `false` from this path. -/
theorem bulkAfterAction_top_error (f : Int → Bool) (reqs : List BulkableRequest)
    (resp : BulkResponse) (h : HookState) :
    (bulkAfterAction f reqs resp (some true) h =
      some { h with failures := h.failures + reqs.length }) ∧
    ((∀ r ∈ reqs, (extractVisibilityTaskKey r).isSome) →
      (bulkAfterAction f reqs resp (some false) h).isSome) ∧
    (∀ h', bulkAfterAction f reqs resp (some false) h = some h' →
      (∀ cb, cb ∈ h'.sent → cb ∈ h.sent ∨ cb.2 = false) ∧
      (∀ r, r ∈ reqs → ∀ k n, extractVisibilityTaskKey r = some (k, n) → k ≠ "" →
        listLookup h'.m k = none ∧
        (∀ e, listLookup h.m k = some e →
          (e.ackCh.ackChInternal, false) ∈ h'.sent))) := by
  refine ⟨bulkAfterErrLoop_retryable reqs h,
    fun hall => bulkAfterErrLoop_nonretry_total reqs h hall,
    fun h' hrun => ?_⟩
  obtain ⟨-, hnew, -, hreq⟩ := bulkAfterErrLoop_nonretry_spec reqs h h' hrun
  exact ⟨hnew, hreq⟩

/-- A hook state holding one pending ticket for key "K". -/
def hookW : HookState :=
  { m := [("K", entry0)], sent := [], failures := 0, corrupted := 0, retries := 0 }

/-- The hook state after the non-retryable top-level error of the witness. -/
def hookWErr : HookState :=
  { m := [], sent := [(0, false)], failures := 1, corrupted := 0, retries := 0 }

/-- Witness for C4: a non-retryable top-level error over the one-request
batch removes the ticket for "K" and delivers `false` on its channel. -/
theorem bulkAfterAction_top_error_witness :
    listLookup hookWErr.m "K" = none ∧ (0, false) ∈ hookWErr.sent := by
  have h := (bulkAfterAction_top_error (fun _ => false) [reqA] [] hookW).2.2 hookWErr rfl
  have h2 := h.2 reqA (List.mem_cons_self _ _) "K" 0 rfl (by decide)
  exact ⟨h2.1, h2.2 entry0 rfl⟩

/-- C7: in the response branch of the after-commit hook, a request with a
non-empty extracted key whose document id has no item in the response index
increments the corrupted-data counter by exactly one and routes
`sendToAck(key, false)`, so the pending ticket for the key (when present)
receives `false` on its channel. -/
theorem bulkAfterRespStep_missing_item (f : Int → Bool)
    (idx : List (String × BulkResponseItem)) (h : HookState) (r : BulkableRequest)
    (k d : String) (hext : extractVisibilityTaskKey r = some (k, 0)) (hk : k ≠ "")
    (hdoc : extractDocID r = some (d, 0)) (hmiss : listLookup idx d = none) :
    bulkAfterRespStep f idx h r =
      some (hookSendToAck { h with corrupted := h.corrupted + 1 } k false) ∧
    (∀ e, listLookup h.m k = some e →
      (e.ackCh.ackChInternal, false) ∈
        (hookSendToAck { h with corrupted := h.corrupted + 1 } k false).sent) := by
  constructor
  · simp only [bulkAfterRespStep, hext, if_neg hk, hdoc, hmiss]
  · intro e he
    exact sendToAck_sends_if_present h.m h.sent k false e he

/-- Witness for C7: the concrete request with key "K" and doc id "A" against
an empty response index costs one corrupted-data increment and yields `false`
on the pending ticket's channel. -/
theorem bulkAfterRespStep_missing_item_witness :
    bulkAfterRespStep (fun _ => false) [] hookW reqA =
      some (hookSendToAck { hookW with corrupted := hookW.corrupted + 1 } "K" false) ∧
    (0, false) ∈
      (hookSendToAck { hookW with corrupted := hookW.corrupted + 1 } "K" false).sent := by
  have h := bulkAfterRespStep_missing_item (fun _ => false) [] hookW reqA "K" "A"
    rfl (by decide) rfl rfl
  exact ⟨h.1, h.2 entry0 rfl⟩

theorem sentCount_cons (c' : Nat) (b : Bool) (sent : SentLog) (c : Nat) :
    sentCount ((c', b) :: sent) c = sentCount sent c + (if c' = c then 1 else 0) := by
  simp [sentCount, List.countP_cons]

theorem sentCount_eq_zero (sent : SentLog) (c : Nat)
    (h : ∀ cb, cb ∈ sent → ¬ cb.1 = c) : sentCount sent c = 0 := by
  rw [sentCount, List.countP_eq_zero]
  intro cb hcb
  simpa using h cb hcb

theorem lookup_put_cases {α : Type} (l : List (String × α)) (k key : String) (v : α)
    (e : α) (h : listLookup (listPut l key v) k = some e) :
    (k = key ∧ e = v) ∨ (k ≠ key ∧ listLookup l k = some e) := by
  by_cases hk : k = key
  · subst hk
    rw [listLookup_put_self] at h
    cases h
    exact Or.inl ⟨rfl, rfl⟩
  · right
    refine ⟨hk, ?_⟩
    rwa [listLookup_put_other _ _ _ _ hk] at h

theorem lookup_remove_cases {α : Type} (l : List (String × α)) (k key : String)
    (e : α) (h : listLookup (listRemove l key) k = some e) :
    k ≠ key ∧ listLookup l k = some e := by
  by_cases hk : k = key
  · subst hk
    rw [listLookup_remove_self] at h
    cases h
  · refine ⟨hk, ?_⟩
    rwa [listLookup_remove_other _ _ _ hk] at h

/-- The processor state invariant: the lifecycle status governs which
references are live, channel identifiers are bounded by the fresh-id counter,
every channel has received at most one value, every channel referenced by the
map has received none, and distinct map entries reference distinct channels. -/
def ProcInv (p : ProcState) : Prop :=
  (p.status = DaemonStatus.daemonStarted ↔ p.mapToAckChan.isSome) ∧
  (p.mapToAckChan.isSome ↔ p.bulkProcessor.isSome) ∧
  (∀ cb, cb ∈ p.sent → cb.1 < p.nextId) ∧
  (∀ c, sentCount p.sent c ≤ 1) ∧
  (∀ m, p.mapToAckChan = some m →
    (∀ k e, listLookup m k = some e →
      e.ackCh.ackChInternal < p.nextId ∧
      sentCount p.sent e.ackCh.ackChInternal = 0) ∧
    (∀ k k' e e', listLookup m k = some e → listLookup m k' = some e' → k ≠ k' →
      e.ackCh.ackChInternal ≠ e'.ackCh.ackChInternal))

theorem procInv_init : ProcInv procInit := by
  refine ⟨by simp [procInit], by simp [procInit], ?_, ?_, ?_⟩
  · intro cb hcb
    simp [procInit] at hcb
  · intro c
    simp [procInit, sentCount]
  · intro m hm
    simp [procInit] at hm

theorem procInv_start (p : ProcState) (h : ProcInv p) : ProcInv (procStart p) := by
  by_cases hs : p.status = DaemonStatus.daemonInit
  · obtain ⟨-, -, h3, h4, -⟩ := h
    simp only [procStart, if_pos hs]
    refine ⟨by simp, by simp, h3, h4, ?_⟩
    intro m hm
    simp only [Option.some.injEq] at hm
    subst hm
    constructor
    · intro k e he
      cases he
    · intro k k' e e' he
      cases he
  · simpa [procStart, if_neg hs] using h

theorem procInv_stop (p : ProcState) (h : ProcInv p) : ProcInv (procStop p) := by
  by_cases hs : p.status = DaemonStatus.daemonStarted
  · obtain ⟨-, -, h3, h4, -⟩ := h
    simp only [procStop, if_pos hs]
    refine ⟨by simp, by simp, h3, h4, ?_⟩
    intro m hm
    cases hm
  · simpa [procStop, if_neg hs] using h

theorem procInv_markStarted (p : ProcState) (m : MapAck) (key : String)
    (hm : p.mapToAckChan = some m) (h : ProcInv p) :
    ProcInv { p with mapToAckChan := some (markStartedOp m p.clock key) } := by
  obtain ⟨h1, h2, h3, h4, h5⟩ := h
  obtain ⟨hb, hd⟩ := h5 m hm
  rw [hm] at h1 h2
  refine ⟨by simpa using h1, by simpa using h2, h3, h4, ?_⟩
  intro m' hm'
  simp only [Option.some.injEq] at hm'
  rcases hl : listLookup m key with _ | e
  · have heq : markStartedOp m p.clock key = m := by
      unfold markStartedOp
      rw [hl]
    rw [heq] at hm'
    subst hm'
    exact ⟨hb, hd⟩
  · have heq : markStartedOp m p.clock key =
        listPut m key { slot := e.slot, ackCh := ackChanStart e.ackCh p.clock } := by
      unfold markStartedOp
      rw [hl]
    rw [heq] at hm'
    subst hm'
    constructor
    · intro k e' he'
      rcases lookup_put_cases _ _ _ _ _ he' with ⟨hk, hev⟩ | ⟨hk, he''⟩
      · subst hev
        exact hb key e hl
      · exact hb k e' he''
    · intro k k' e1 e2 he1 he2 hkk
      rcases lookup_put_cases _ _ _ _ _ he1 with ⟨hk1, hev1⟩ | ⟨hk1, he1'⟩ <;>
        rcases lookup_put_cases _ _ _ _ _ he2 with ⟨hk2, hev2⟩ | ⟨hk2, he2'⟩
      · exact absurd (hk1.trans hk2.symm) hkk
      · subst hev1
        exact hd key k' e e2 hl he2' (fun hh => hkk (hk1.trans hh))
      · subst hev2
        exact hd k key e1 e he1' hl (fun hh => hkk (hh.trans hk2.symm))
      · exact hd k k' e1 e2 he1' he2' hkk

theorem procInv_ack (p : ProcState) (m : MapAck) (key : String) (ack : Bool)
    (hm : p.mapToAckChan = some m) (h : ProcInv p) :
    ProcInv { p with
      mapToAckChan := some (sendToAckChan m p.sent key ack).1,
      sent := (sendToAckChan m p.sent key ack).2 } := by
  obtain ⟨h1, h2, h3, h4, h5⟩ := h
  obtain ⟨hb, hd⟩ := h5 m hm
  rw [hm] at h1 h2
  rcases hl : listLookup m key with _ | e
  · have hsend : sendToAckChan m p.sent key ack = (m, p.sent) := by
      unfold sendToAckChan
      rw [hl]
    rw [hsend]
    refine ⟨by simpa using h1, by simpa using h2, h3, h4, ?_⟩
    intro m' hm'
    simp only [Option.some.injEq] at hm'
    subst hm'
    exact ⟨hb, hd⟩
  · obtain ⟨hbe, hce⟩ := hb key e hl
    have hsend : sendToAckChan m p.sent key ack =
        (listRemove m key, (e.ackCh.ackChInternal, ack) :: p.sent) := by
      unfold sendToAckChan
      rw [hl]
      rfl
    rw [hsend]
    refine ⟨by simpa using h1, by simpa using h2, ?_, ?_, ?_⟩
    · intro cb hcb
      rcases List.mem_cons.mp hcb with hcb' | hcb'
      · subst hcb'
        exact hbe
      · exact h3 cb hcb'
    · intro c
      show sentCount ((e.ackCh.ackChInternal, ack) :: p.sent) c ≤ 1
      rw [sentCount_cons]
      by_cases hc : e.ackCh.ackChInternal = c
      · subst hc
        rw [hce]
        simp
      · rw [if_neg hc]
        simpa using h4 c
    · intro m' hm'
      simp only [Option.some.injEq] at hm'
      subst hm'
      constructor
      · intro k e' he'
        obtain ⟨hk, he''⟩ := lookup_remove_cases _ _ _ _ he'
        obtain ⟨hbe', hce'⟩ := hb k e' he''
        have hne : e'.ackCh.ackChInternal ≠ e.ackCh.ackChInternal :=
          hd k key e' e he'' hl hk
        refine ⟨hbe', ?_⟩
        show sentCount ((e.ackCh.ackChInternal, ack) :: p.sent) e'.ackCh.ackChInternal = 0
        rw [sentCount_cons, if_neg (fun hh => hne hh.symm)]
        simpa using hce'
      · intro k k' e1 e2 he1 he2 hkk
        obtain ⟨-, he1'⟩ := lookup_remove_cases _ _ _ _ he1
        obtain ⟨-, he2'⟩ := lookup_remove_cases _ _ _ _ he2
        exact hd k k' e1 e2 he1' he2' hkk

theorem procInv_add (p : ProcState) (r : BulkableRequest) (key : String) (c : Nat)
    (p' : ProcState) (hadd : procAdd p r key = some (c, p')) (h : ProcInv p) :
    ProcInv p' := by
  obtain ⟨h1, h2, h3, h4, h5⟩ := h
  rcases hmo : p.mapToAckChan with _ | m
  · simp only [procAdd, hmo] at hadd
    exact Option.noConfusion hadd
  · obtain ⟨hb, hd⟩ := h5 m hmo
    rw [hmo] at h1 h2
    have hst : p.status = DaemonStatus.daemonStarted := h1.mpr (by simp)
    rcases hl : listLookup m key with _ | e
    · rcases hq : p.bulkProcessor with _ | q
      · simp only [procAdd, hmo, hl, hq] at hadd
        exact Option.noConfusion hadd
      · simp only [procAdd, hmo, hl, hq, Option.some.injEq, Prod.mk.injEq] at hadd
        obtain ⟨-, hp'⟩ := hadd
        subst hp'
        refine ⟨by simp [hst], by simp, ?_, h4, ?_⟩
        · intro cb hcb
          exact Nat.lt_succ_of_lt (h3 cb hcb)
        · intro m' hm'
          simp only [Option.some.injEq] at hm'
          subst hm'
          constructor
          · intro k e' he'
            rcases lookup_put_cases _ _ _ _ _ he' with ⟨hk, hev⟩ | ⟨hk, he''⟩
            · subst hev
              refine ⟨Nat.lt_succ_self _, ?_⟩
              exact sentCount_eq_zero _ _ (fun cb hcb => Nat.ne_of_lt (h3 cb hcb))
            · obtain ⟨hbb, hcc⟩ := hb k e' he''
              exact ⟨Nat.lt_succ_of_lt hbb, hcc⟩
          · intro k k' e1 e2 he1 he2 hkk
            rcases lookup_put_cases _ _ _ _ _ he1 with ⟨hk1, hev1⟩ | ⟨hk1, he1'⟩ <;>
              rcases lookup_put_cases _ _ _ _ _ he2 with ⟨hk2, hev2⟩ | ⟨hk2, he2'⟩
            · exact absurd (hk1.trans hk2.symm) hkk
            · subst hev1
              exact ne_of_gt (hb k' e2 he2').1
            · subst hev2
              exact ne_of_lt (hb k e1 he1').1
            · exact hd k k' e1 e2 he1' he2' hkk
    · simp only [procAdd, hmo, hl, Option.some.injEq, Prod.mk.injEq] at hadd
      obtain ⟨-, hp'⟩ := hadd
      subst hp'
      obtain ⟨hbe, hce⟩ := hb key e hl
      refine ⟨by simp [hst], by simpa using h2, ?_, ?_, ?_⟩
      · intro cb hcb
        rw [show ackChanDone p.sent e.ackCh false =
            (e.ackCh.ackChInternal, false) :: p.sent from rfl] at hcb
        rcases List.mem_cons.mp hcb with hcb' | hcb'
        · subst hcb'
          exact Nat.lt_succ_of_lt hbe
        · exact Nat.lt_succ_of_lt (h3 cb hcb')
      · intro cc
        show sentCount ((e.ackCh.ackChInternal, false) :: p.sent) cc ≤ 1
        rw [sentCount_cons]
        by_cases hc : e.ackCh.ackChInternal = cc
        · subst hc
          rw [hce]
          simp
        · rw [if_neg hc]
          simpa using h4 cc
      · intro m' hm'
        simp only [Option.some.injEq] at hm'
        subst hm'
        constructor
        · intro k e' he'
          rcases lookup_put_cases _ _ _ _ _ he' with ⟨hk, hev⟩ | ⟨hk, he''⟩
          · subst hev
            refine ⟨Nat.lt_succ_self _, ?_⟩
            show sentCount ((e.ackCh.ackChInternal, false) :: p.sent) p.nextId = 0
            rw [sentCount_cons, if_neg (Nat.ne_of_lt hbe)]
            rw [sentCount_eq_zero p.sent p.nextId (fun cb hcb => Nat.ne_of_lt (h3 cb hcb))]
          · obtain ⟨hbb, hcc⟩ := hb k e' he''
            have hne : e'.ackCh.ackChInternal ≠ e.ackCh.ackChInternal :=
              hd k key e' e he'' hl hk
            refine ⟨Nat.lt_succ_of_lt hbb, ?_⟩
            show sentCount ((e.ackCh.ackChInternal, false) :: p.sent)
              e'.ackCh.ackChInternal = 0
            rw [sentCount_cons, if_neg (fun hh => hne hh.symm)]
            simpa using hcc
        · intro k k' e1 e2 he1 he2 hkk
          rcases lookup_put_cases _ _ _ _ _ he1 with ⟨hk1, hev1⟩ | ⟨hk1, he1'⟩ <;>
            rcases lookup_put_cases _ _ _ _ _ he2 with ⟨hk2, hev2⟩ | ⟨hk2, he2'⟩
          · exact absurd (hk1.trans hk2.symm) hkk
          · subst hev1
            exact ne_of_gt (hb k' e2 he2').1
          · subst hev2
            exact ne_of_lt (hb k e1 he1').1
          · exact hd k k' e1 e2 he1' he2' hkk

theorem procInv_step (p q : ProcState) (h : ProcInv p) (hs : ProcStep p q) :
    ProcInv q := by
  cases hs with
  | startStep => exact procInv_start p h
  | stopStep => exact procInv_stop p h
  | tickStep => exact h
  | addStep =>
    rename_i r key c ha
    exact procInv_add p r key c q ha h
  | beforeStep =>
    rename_i m key hm
    exact procInv_markStarted p m key hm h
  | ackStep =>
    rename_i m key ack hm
    exact procInv_ack p m key ack hm h

theorem procInv_reachable (p : ProcState) (h : ProcReachable p) : ProcInv p := by
  induction h with
  | init => exact procInv_init
  | step p q hp hs ih => exact procInv_step p q ih hs

/-- C2: in every reachable processor state, every ticket channel has received
at most one value; a channel still referenced by the dedup map has received
none (so once a ticket's result is signalled the map no longer refers to it);
once the processor is Stopped no step sends anything further (tickets alive
at Stop never receive a value); and the terminal ack/nack primitive
`sendToAckChan` invokes `done` and removes the map entry in one atomic
conditional-remove step. -/
theorem ackChan_exactly_once (p : ProcState) (hreach : ProcReachable p) :
    (∀ c, sentCount p.sent c ≤ 1) ∧
    (∀ m k e, p.mapToAckChan = some m → listLookup m k = some e →
      sentCount p.sent e.ackCh.ackChInternal = 0) ∧
    (p.status = DaemonStatus.daemonStopped → ∀ q, ProcStep p q → q.sent = p.sent) ∧
    (∀ m sent key ack e, listLookup m key = some e →
      sendToAckChan m sent key ack =
        (listRemove m key, (e.ackCh.ackChInternal, ack) :: sent)) := by
  obtain ⟨h1, h2, h3, h4, h5⟩ := procInv_reachable p hreach
  refine ⟨h4, fun m k e hm he => ((h5 m hm).1 k e he).2, ?_, ?_⟩
  · intro hstop q hs
    have hmn : p.mapToAckChan = none := by
      rcases hmo : p.mapToAckChan with _ | m
      · rfl
      · have hstt : p.status = DaemonStatus.daemonStarted := h1.mpr (by simp [hmo])
        rw [hstop] at hstt
        cases hstt
    cases hs with
    | startStep =>
      have hne : p.status ≠ DaemonStatus.daemonInit := by
        rw [hstop]
        intro hh
        cases hh
      simp [procStart, hne]
    | stopStep =>
      have hne : p.status ≠ DaemonStatus.daemonStarted := by
        rw [hstop]
        intro hh
        cases hh
      simp [procStop, hne]
    | tickStep => rfl
    | addStep =>
      rename_i r key c ha
      simp only [procAdd, hmn] at ha
      exact Option.noConfusion ha
    | beforeStep =>
      rename_i m key hm
      rw [hmn] at hm
    | ackStep =>
      rename_i m key ack hm
      rw [hmn] at hm
      exact Option.noConfusion hm
  · intro m sent key ack e he
    unfold sendToAckChan
    rw [he]
    rfl

/-- The processor state after `Start`, `Add("K")` and a duplicate `Add("K")`:
the superseded channel 0 has received `false` and the map holds the
replacement channel 1 in the same slot. -/
def pTrace3 : ProcState :=
  { status := DaemonStatus.daemonStarted,
    mapToAckChan := some
      [("K", { slot := 0, ackCh := { ackChInternal := 1, addedAt := 0, startedAt := 0 } })],
    bulkProcessor := some [reqA], nextId := 2, clock := 0, sent := [(0, false)] }

theorem pTrace3_reachable : ProcReachable pTrace3 :=
  ProcReachable.step pDupState pTrace3
    (ProcReachable.step (procStart procInit) pDupState
      (ProcReachable.step procInit (procStart procInit) ProcReachable.init
        (ProcStep.startStep procInit))
      (ProcStep.addStep (procStart procInit) reqA "K" 0 pDupState rfl))
    (ProcStep.addStep pDupState reqA "K" 1 pTrace3 rfl)

/-- Witness for C2 on the concrete reachable state after a dedup: the
superseded channel received exactly one value and the live channel none. -/
theorem ackChan_exactly_once_witness :
    sentCount pTrace3.sent 0 ≤ 1 ∧ sentCount pTrace3.sent 1 = 0 := by
  have h := ackChan_exactly_once pTrace3 pTrace3_reachable
  exact ⟨h.1 0,
    h.2.1 [("K", { slot := 0, ackCh := { ackChInternal := 1, addedAt := 0, startedAt := 0 } })]
      "K" { slot := 0, ackCh := { ackChInternal := 1, addedAt := 0, startedAt := 0 } } rfl rfl⟩

/-- C10: `Add` performs no status check, and in every reachable state it
succeeds (no nil dereference of the map or bulk-processor references) exactly
when the status is Started: `Start` is the only transition that sets both
references and `Stop` clears them, so under the Started precondition the
nil-dereference branch is unreachable, and outside it `Add` faults. -/
theorem procAdd_total_iff_started (p : ProcState) (hreach : ProcReachable p)
    (r : BulkableRequest) (key : String) :
    (procAdd p r key).isSome ↔ p.status = DaemonStatus.daemonStarted := by
  obtain ⟨h1, h2, -, -, -⟩ := procInv_reachable p hreach
  constructor
  · intro hsome
    rcases hmo : p.mapToAckChan with _ | m
    · simp [procAdd, hmo] at hsome
    · exact h1.mpr (by simp [hmo])
  · intro hst
    have hms := h1.mp hst
    rcases hmo : p.mapToAckChan with _ | m
    · rw [hmo] at hms
      cases hms
    · have hbs := h2.mp (by simp [hmo])
      rcases hq : p.bulkProcessor with _ | q
      · rw [hq] at hbs
        cases hbs
      · rcases hl : listLookup m key with _ | e
        · simp [procAdd, hmo, hl, hq]
        · simp [procAdd, hmo, hl]

/-- Witness for C10 on the concrete reachable started state. -/
theorem procAdd_total_iff_started_witness :
    (procAdd pTrace3 reqA "K2").isSome ↔
      pTrace3.status = DaemonStatus.daemonStarted :=
  procAdd_total_iff_started pTrace3 pTrace3_reachable reqA "K2"

